import Mathlib

/-!
# modctl: the prune orchestrator and the root configuration

A shallow embedding of `pkg/backend/prune.go` (`backend.Prune`) and of
`pkg/config/root.go` (`NewRoot`), with the properties stated about them.

Go `error` values are modelled by `GoError`; the store behind the backend is
an interface in the source, so it is a record of two stage functions over an
arbitrary state type, and `Prune` threads that state explicitly and records
every stage call it issues.
-/

namespace Modctl

/-! ## Go errors -/

/-- A Go `error` value as `Prune` and its callers observe it: a leaf error
carries its `Error()` text and whether it is a cancellation error (such as
`context.Canceled`); a wrapping error, as built by `fmt.Errorf` with `%w`,
carries its own text and the error `Unwrap()` returns. -/
inductive GoError where
  | leaf (cancellation : Bool) (msg : String)
  | wrap (msg : String) (cause : GoError)
deriving DecidableEq

namespace GoError

/-- The `Error()` method. -/
def Error : GoError → String
  | leaf _ msg => msg
  | wrap msg _ => msg

/-- The `Unwrap()` method; `none` for an error that wraps nothing. -/
def Unwrap : GoError → Option GoError
  | leaf _ _ => none
  | wrap _ cause => some cause

/-- The check `errors.Is(err, <cancellation>)` makes: walk the `Unwrap()` chain
and succeed at the first cancellation error on it. -/
def IsCancellation : GoError → Bool
  | leaf cancellation _ => cancellation
  | wrap _ cause => IsCancellation cause

end GoError

/-- The call `fmt.Errorf(lead + "%w", err)`: the text is `lead` followed by
`err.Error()`, and the result unwraps to `err`. -/
def Errorf (lead : String) (err : GoError) : GoError :=
  GoError.wrap (lead ++ err.Error) err

/-! ## The store interface and the backend -/

/-- What a stage of the store hands back: the `error` it returns and the
store as the stage left it. -/
structure StageResult (σ : Type) where
  err : Option GoError
  state : σ

/-- The two methods of the storage interface that `Prune` calls, over a
store state `σ` and a context type `κ`. -/
structure Store (κ σ : Type) where
  PerformGC : κ → Bool → Bool → σ → StageResult σ
  PerformPurgeUploads : κ → Bool → σ → StageResult σ

/-- The receiver of `Prune`; only its `store` field is used. -/
structure backend (κ σ : Type) where
  store : Store κ σ

/-- One call on the store, with the arguments it was issued with. -/
inductive StoreCall (κ : Type) where
  | PerformGC (ctx : κ) (dryRun removeUntagged : Bool)
  | PerformPurgeUploads (ctx : κ) (dryRun : Bool)
deriving DecidableEq

namespace StoreCall

/-- The `dryRun` argument of a call. -/
def dryRun {κ : Type} : StoreCall κ → Bool
  | PerformGC _ d _ => d
  | PerformPurgeUploads _ d => d

/-- Whether the call is the upload-purge stage. -/
def isPurge {κ : Type} : StoreCall κ → Bool
  | PerformGC _ _ _ => false
  | PerformPurgeUploads _ _ => true

/-- The call with its `dryRun` argument forgotten (set to `false`). -/
def eraseDryRun {κ : Type} : StoreCall κ → StoreCall κ
  | PerformGC ctx _ r => PerformGC ctx false r
  | PerformPurgeUploads ctx _ => PerformPurgeUploads ctx false

end StoreCall

/-- Everything a run of `Prune` produces: the returned `error`, the store
afterwards, the store calls in the order issued, and the lines logged. -/
structure PruneResult (κ σ : Type) where
  err : Option GoError
  state : σ
  calls : List (StoreCall κ)
  logs : List String

/-- The text `Prune` puts before a garbage-collection error (spelt as in the source). -/
def gcLead : String := "faile to perform gc: "

/-- The text `Prune` puts before an upload-purge error. -/
def purgeLead : String := "failed to perform purge uploads: "

/-- The first line `Prune` logs. -/
def startLine : String :=
  "prune: starting prune operation for unused blobs and storage cleanup"

/-- The line `Prune` logs before returning `nil`. -/
def doneLine : String :=
  "prune: successfully pruned unused blobs and cleaned up storage"

/-- The method `(*backend).Prune` of `pkg/backend/prune.go`. -/
def backend.Prune {κ σ : Type} (b : backend κ σ) (ctx : κ)
    (dryRun removeUntagged : Bool) (s : σ) : PruneResult κ σ :=
  let gc := b.store.PerformGC ctx dryRun removeUntagged s
  match gc.err with
  | some err =>
    { err := some (Errorf gcLead err)
      state := gc.state
      calls := [StoreCall.PerformGC ctx dryRun removeUntagged]
      logs := [startLine] }
  | none =>
    let purge := b.store.PerformPurgeUploads ctx dryRun gc.state
    match purge.err with
    | some err =>
      { err := some (Errorf purgeLead err)
        state := purge.state
        calls := [StoreCall.PerformGC ctx dryRun removeUntagged,
                  StoreCall.PerformPurgeUploads ctx dryRun]
        logs := [startLine] }
    | none =>
      { err := none
        state := purge.state
        calls := [StoreCall.PerformGC ctx dryRun removeUntagged,
                  StoreCall.PerformPurgeUploads ctx dryRun]
        logs := [startLine, doneLine] }

/-! ## Stores used as concrete inputs -/

/-- A store over a counter: each stage adds one to the counter unless it is
asked for a dry run, and fails with the given error, if any. -/
def counterStore (gcErr purgeErr : Option GoError) : Store Unit Nat where
  PerformGC := fun _ dryRun _ n =>
    { err := gcErr, state := if dryRun then n else n + 1 }
  PerformPurgeUploads := fun _ dryRun n =>
    { err := purgeErr, state := if dryRun then n else n + 1 }

/-- The cancellation error `context.Canceled`. -/
def Canceled : GoError := GoError.leaf true "context canceled"

/-- An error of the store that is no cancellation. -/
def ioFailure : GoError := GoError.leaf false "storage unreachable"

/-! ## Paths: `path/filepath` on a slash-separated system

`NewRoot` builds its directories with `filepath.Join` of the Go standard
library. `Join` drops leading empty elements, joins the rest with the
separator and cleans the result; `Clean` works element by element: empty and
`.` elements are dropped, a `..` element removes the element before it, or is
dropped at the root, or is kept at the start of a relative path, and an empty
result is `.`.
-/

namespace filepath

/-- The elements of a path: the stretches between its slashes. -/
def splitSlash : List Char → List (List Char)
  | [] => [[]]
  | c :: cs =>
    if c = '/' then [] :: splitSlash cs
    else
      match splitSlash cs with
      | [] => [[c]]
      | x :: xs => (c :: x) :: xs

/-- The elements written out with a slash between neighbours. -/
def joinSlash : List (List Char) → List Char
  | [] => []
  | [x] => x
  | x :: y :: rest => x ++ '/' :: joinSlash (y :: rest)

/-- One round of the loop of `Clean`: `out` holds the elements written so far,
last first, and `elem` is the next element read. -/
def cleanStep (rooted : Bool) (out : List (List Char)) (elem : List Char) : List (List Char) :=
  if elem = [] then out
  else if elem = ['.'] then out
  else if elem = ['.', '.'] then
    match out with
    | top :: below =>
      if top = ['.', '.'] then (if rooted then out else elem :: out) else below
    | [] => if rooted then out else [elem]
  else elem :: out

/-- Whether a path starts with the separator. -/
def isRooted (path : List Char) : Bool := path.head? == some '/'

/-- The text of the cleaned path, from the elements written (last first). -/
def render (rooted : Bool) (out : List (List Char)) : List Char :=
  if rooted then '/' :: joinSlash out.reverse
  else if out = [] then ['.']
  else joinSlash out.reverse

/-- The function `Clean` on the characters of a path. -/
def cleanChars (path : List Char) : List Char :=
  if path = [] then ['.']
  else render (isRooted path) ((splitSlash path).foldl (cleanStep (isRooted path)) [])

/-- The function `filepath.Clean`. -/
def Clean (path : String) : String := String.mk (cleanChars path.data)

/-- The function `strings.Join`. -/
def stringsJoin : List String → String → String
  | [], _ => ""
  | [a], _ => a
  | a :: b :: rest, sep => a ++ sep ++ stringsJoin (b :: rest) sep

/-- The function `filepath.Join`: from the first non-empty element on, the
elements joined by the separator and cleaned; the empty string when every
element is empty. -/
def Join : List String → String
  | [] => ""
  | e :: rest => if e ≠ "" then Clean (stringsJoin (e :: rest) "/") else Join rest

/-- A stack of written elements on which every element was really written:
pushing it on what lies below it gives the stack itself. -/
def Settled (rooted : Bool) : List (List Char) → Prop
  | [] => True
  | x :: out => cleanStep rooted out x = x :: out ∧ Settled rooted out

/-- An ordinary path element: not empty, not `.`, not `..`, without a slash. -/
def Plain (x : List Char) : Prop :=
  x ≠ [] ∧ x ≠ ['.'] ∧ x ≠ ['.', '.'] ∧ '/' ∉ x

end filepath

/-! ## The root configuration (`pkg/config/root.go`) -/

/-- The type `user.User` of the standard library. -/
structure User where
  Uid : String
  Gid : String
  Username : String
  Name : String
  HomeDir : String

namespace config

/-- The struct `Root`. -/
structure Root where
  StorageDir : String
  Pprof : Bool
  PprofAddr : String
  DisableProgress : Bool
  LogDir : String
  LogLevel : String
deriving DecidableEq

/-- The function `NewRoot`; `current` is what `user.Current()` returns, and the
result is the pair `(*Root, error)`. -/
def NewRoot (current : Except GoError User) : Option Root × Option GoError :=
  match current with
  | Except.error err => (none, some err)
  | Except.ok user =>
    (some
      { StorageDir := filepath.Join [user.HomeDir, ".modctl"]
        Pprof := false
        PprofAddr := "localhost:6060"
        DisableProgress := false
        LogDir := filepath.Join [user.HomeDir, ".modctl/logs"]
        LogLevel := "info" },
     none)

end config

/-! ## The store behind the backend

The storage package that implements `PerformGC` and `PerformPurgeUploads` is
not among the sources read here. The definitions of this section model it
from the design: the data model, the Reachability Walker, the Mark-Sweep
Collector and the Upload Session Purger.
-/

/-- Modelled from the spec: the content digest that identifies a blob (the storage
package is missing). -/
abbrev Digest := String

/-- Modelled from the spec: the Blob and Manifest of the data model (the storage package
is missing): its content digest, its size, and, when the blob is a manifest whose content
parses, the digests that manifest references. -/
structure Blob where
  digest : Digest
  size : Nat
  refs : Option (List Digest)
deriving DecidableEq

/-- Modelled from the spec: the Upload Session of the data model (the storage package is
missing), with its id, its start time and its size. -/
structure UploadSession where
  sessionID : String
  startedAt : Nat
  sizeBytes : Nat
deriving DecidableEq

/-- Modelled from the spec: the state of the store and of its reference index (the storage
package is missing), as the collector sees them:
the blob inventory, the tags (name and manifest digest), the upload
sessions, the injected clock and retention window, whether the index and
store can be reached at all, and the digests whose deletion fails. -/
structure Registry where
  blobs : List Blob
  tags : List (String × Digest)
  uploads : List UploadSession
  now : Nat
  retention : Nat
  available : Bool
  undeletable : List Digest
deriving DecidableEq

/-- Modelled from the spec: the context passed to the stages of the missing storage
package, reduced to the cancellation signal the operation accepts. -/
structure Context where
  cancelled : Bool
deriving DecidableEq

/-- Modelled from the spec: the stage-fatal error of the missing storage package, for an
index or store that cannot be reached. -/
def storeUnreachable : GoError := GoError.leaf false "store unreachable"

/-- Modelled from the spec: the per-item error of the missing `DeleteBlob`, for a digest it
cannot delete. -/
def deleteFailed : GoError := GoError.leaf false "delete failed"

namespace Registry

/-- Modelled from the spec: the missing `ListBlobDigests` of the store, the digests
physically present in it. -/
def ListBlobDigests (s : Registry) : List Digest :=
  s.blobs.map Blob.digest

/-- Modelled from the spec: the missing `GetManifestContent` with the parsing of the
manifest: the digests a manifest references, read from the blob stored under
the digest; empty when the blob is absent, is no manifest or does not
parse (that branch is skipped). -/
def refsOf (s : Registry) (d : Digest) : List Digest :=
  match s.blobs.find? (fun b => b.digest == d) with
  | some b => b.refs.getD []
  | none => []

/-- Modelled from the spec: the manifests present with zero referencing tags, from the
missing reference index. -/
def untaggedManifests (s : Registry) : List Digest :=
  (s.blobs.filter (fun b => b.refs.isSome && !(s.tags.any (fun t => t.2 == b.digest)))).map
    Blob.digest

/-- Modelled from the spec: the roots of the walk of the missing Reachability Walker: the manifest digest of every tag, and,
when `removeUntagged` is false, every manifest with zero tags. -/
def roots (s : Registry) (removeUntagged : Bool) : List Digest :=
  s.tags.map Prod.snd ++ (if removeUntagged then [] else s.untaggedManifests)

/-- Modelled from the spec: the worklist traversal of the missing Reachability Walker: pop a digest;
if it is already marked live drop it, otherwise mark it live and push the
digests it references. The first argument bounds the number of pops. -/
def walk (s : Registry) : Nat → List Digest → List Digest → List Digest
  | 0, _, live => live
  | _ + 1, [], live => live
  | fuel + 1, d :: work, live =>
    if d ∈ live then walk s fuel work live
    else walk s fuel (s.refsOf d ++ work) (d :: live)

/-- Modelled from the spec: the number of pops the walk of the missing Reachability Walker
is given: one for each root and one for each reference written in a stored
manifest (enough for the walk to empty its worklist, see `walk_closed`). -/
def walkBound (s : Registry) (removeUntagged : Bool) : Nat :=
  (s.roots removeUntagged).length + (s.blobs.map (fun b => (b.refs.getD []).length)).sum

/-- Modelled from the spec: the missing `ComputeLiveSet(ctx, removeUntagged)` of the
Reachability Walker: a hard error when cancelled or when the index cannot be reached,
otherwise the digests marked live by the walk from the roots. -/
def ComputeLiveSet (s : Registry) (ctx : Context) (removeUntagged : Bool) :
    Except GoError (List Digest) :=
  if ctx.cancelled then Except.error Canceled
  else if !s.available then Except.error storeUnreachable
  else Except.ok (s.walk (s.walkBound removeUntagged) (s.roots removeUntagged) [])

/-- Modelled from the spec: the missing `DeleteBlob` of the store: fails for a digest that cannot be deleted,
otherwise removes the blob stored under the digest and nothing else. -/
def DeleteBlob (s : Registry) (d : Digest) : Except GoError Registry :=
  if d ∈ s.undeletable then Except.error deleteFailed
  else Except.ok { s with blobs := s.blobs.filter (fun b => !(b.digest == d)) }

/-- Modelled from the spec: the size attribute of the blob stored under a digest in the
missing store (zero when absent). -/
def blobSize (s : Registry) (d : Digest) : Nat :=
  match s.blobs.find? (fun b => b.digest == d) with
  | some b => b.size
  | none => 0

end Registry

/-- Modelled from the spec: the report of the missing Mark-Sweep Collector: kept count, deleted (or
would-delete) digests, reclaimed bytes, and the error of each digest whose
deletion failed. -/
structure Report where
  kept : Nat
  deleted : List Digest
  reclaimed : Nat
  errors : List (Digest × GoError)
deriving DecidableEq

namespace Registry

/-- Modelled from the spec: the sweep of the missing Mark-Sweep Collector over the
inventory: a live digest is kept; a digest
outside the live set is recorded without touching storage under dry run, and
otherwise deleted, a failed deletion being recorded without stopping the sweep. -/
def sweep (live : List Digest) (dryRun : Bool) :
    List Digest → Registry → Report → Report × Registry
  | [], s, rep => (rep, s)
  | d :: rest, s, rep =>
    if d ∈ live then sweep live dryRun rest s { rep with kept := rep.kept + 1 }
    else if dryRun then
      sweep live dryRun rest s
        { rep with deleted := rep.deleted ++ [d], reclaimed := rep.reclaimed + s.blobSize d }
    else
      match s.DeleteBlob d with
      | Except.ok s' =>
        sweep live dryRun rest s'
          { rep with deleted := rep.deleted ++ [d], reclaimed := rep.reclaimed + s.blobSize d }
      | Except.error e =>
        sweep live dryRun rest s { rep with errors := rep.errors ++ [(d, e)] }

/-- Modelled from the spec: the missing `Collect(ctx, liveDigests, dryRun)` of the
Mark-Sweep Collector:
a hard error when cancelled or when the store cannot be reached, otherwise
the sweep of the whole inventory. -/
def Collect (s : Registry) (ctx : Context) (live : List Digest) (dryRun : Bool) :
    Except GoError (Report × Registry) :=
  if ctx.cancelled then Except.error Canceled
  else if !s.available then Except.error storeUnreachable
  else Except.ok (sweep live dryRun s.ListBlobDigests s
    { kept := 0, deleted := [], reclaimed := 0, errors := [] })

/-- Modelled from the spec: the staleness test of the missing Upload Session Purger: its age exceeds the
retention window. -/
def stale (s : Registry) (u : UploadSession) : Bool :=
  decide (s.retention < s.now - u.startedAt)

/-- Modelled from the spec: the missing `PurgeUploads(ctx, dryRun)` of the Upload Session
Purger: a hard
error when cancelled or when the store cannot be reached; otherwise the stale
sessions are removed, or only reported under dry run. The result lists the
stale sessions. -/
def PurgeUploads (s : Registry) (ctx : Context) (dryRun : Bool) :
    Except GoError (List UploadSession × Registry) :=
  if ctx.cancelled then Except.error Canceled
  else if !s.available then Except.error storeUnreachable
  else if dryRun then Except.ok (s.uploads.filter s.stale, s)
  else Except.ok (s.uploads.filter s.stale,
    { s with uploads := s.uploads.filter (fun u => !(s.stale u)) })

/-- Modelled from the spec: the missing garbage-collection stage `PerformGC` of the store: the
Reachability Walker, then the Mark-Sweep Collector on the live set it built. -/
def PerformGC (ctx : Context) (dryRun removeUntagged : Bool) (s : Registry) :
    StageResult Registry :=
  match s.ComputeLiveSet ctx removeUntagged with
  | Except.error e => { err := some e, state := s }
  | Except.ok live =>
    match s.Collect ctx live dryRun with
    | Except.error e => { err := some e, state := s }
    | Except.ok (_, s') => { err := none, state := s' }

/-- Modelled from the spec: the missing upload-purge stage `PerformPurgeUploads` of the
store: the
Upload Session Purger. -/
def PerformPurgeUploads (ctx : Context) (dryRun : Bool) (s : Registry) :
    StageResult Registry :=
  match s.PurgeUploads ctx dryRun with
  | Except.error e => { err := some e, state := s }
  | Except.ok (_, s') => { err := none, state := s' }

/-- A digest is reachable when it is a root or is referenced by a reachable
manifest. -/
inductive Reachable (s : Registry) (removeUntagged : Bool) : Digest → Prop where
  | root (d : Digest) (h : d ∈ s.roots removeUntagged) : Reachable s removeUntagged d
  | step (m d : Digest) (hm : Reachable s removeUntagged m) (h : d ∈ s.refsOf m) :
      Reachable s removeUntagged d

end Registry

/-- Modelled from the spec: the missing store, with its two stages, as the storage
interface of the backend. -/
def registryStore : Store Context Registry where
  PerformGC := Registry.PerformGC
  PerformPurgeUploads := Registry.PerformPurgeUploads

/-- Scenario A: manifest `m1` tagged "v1" and referencing `b1`, and an
unreferenced blob `b2`. -/
def scenarioA (m1 b1 b2 : Digest) (n1 n2 n3 : Nat) : Registry where
  blobs := [{ digest := m1, size := n1, refs := some [b1] },
            { digest := b1, size := n2, refs := none },
            { digest := b2, size := n3, refs := none }]
  tags := [("v1", m1)]
  uploads := []
  now := 0
  retention := 0
  available := true
  undeletable := []


/-- The references still to be pushed: those written in stored blobs whose
digest is not yet marked live. -/
def Registry.pending (s : Registry) (live : List Digest) : Nat :=
  ((s.blobs.filter (fun b => decide (b.digest ∉ live))).map
    (fun b => (b.refs.getD []).length)).sum

/-! ## Properties of `Prune` -/

section PruneLemmas

variable {κ σ : Type}

/-- The run of `Prune` when the garbage-collection stage fails. -/
theorem prune_of_gc_error (b : backend κ σ) (ctx : κ) (dryRun removeUntagged : Bool) (s : σ)
    (e : GoError) (h : (b.store.PerformGC ctx dryRun removeUntagged s).err = some e) :
    b.Prune ctx dryRun removeUntagged s =
      { err := some (Errorf gcLead e)
        state := (b.store.PerformGC ctx dryRun removeUntagged s).state
        calls := [StoreCall.PerformGC ctx dryRun removeUntagged]
        logs := [startLine] } := by
  simp only [backend.Prune, h]

/-- The run of `Prune` when the garbage collection succeeds and the purge fails. -/
theorem prune_of_purge_error (b : backend κ σ) (ctx : κ) (dryRun removeUntagged : Bool) (s : σ)
    (e : GoError) (hgc : (b.store.PerformGC ctx dryRun removeUntagged s).err = none)
    (h : (b.store.PerformPurgeUploads ctx dryRun
      (b.store.PerformGC ctx dryRun removeUntagged s).state).err = some e) :
    b.Prune ctx dryRun removeUntagged s =
      { err := some (Errorf purgeLead e)
        state := (b.store.PerformPurgeUploads ctx dryRun
          (b.store.PerformGC ctx dryRun removeUntagged s).state).state
        calls := [StoreCall.PerformGC ctx dryRun removeUntagged,
                  StoreCall.PerformPurgeUploads ctx dryRun]
        logs := [startLine] } := by
  simp only [backend.Prune, hgc, h]

/-- The run of `Prune` when both stages succeed. -/
theorem prune_of_success (b : backend κ σ) (ctx : κ) (dryRun removeUntagged : Bool) (s : σ)
    (hgc : (b.store.PerformGC ctx dryRun removeUntagged s).err = none)
    (h : (b.store.PerformPurgeUploads ctx dryRun
      (b.store.PerformGC ctx dryRun removeUntagged s).state).err = none) :
    b.Prune ctx dryRun removeUntagged s =
      { err := none
        state := (b.store.PerformPurgeUploads ctx dryRun
          (b.store.PerformGC ctx dryRun removeUntagged s).state).state
        calls := [StoreCall.PerformGC ctx dryRun removeUntagged,
                  StoreCall.PerformPurgeUploads ctx dryRun]
        logs := [startLine, doneLine] } := by
  simp only [backend.Prune, hgc, h]

/-- The calls of a run: the garbage collection, then the purge when the
garbage collection returned nil. -/
theorem prune_calls_eq (b : backend κ σ) (ctx : κ) (dryRun removeUntagged : Bool) (s : σ) :
    (b.Prune ctx dryRun removeUntagged s).calls =
      StoreCall.PerformGC ctx dryRun removeUntagged ::
        (if (b.store.PerformGC ctx dryRun removeUntagged s).err.isNone
          then [StoreCall.PerformPurgeUploads ctx dryRun] else []) := by
  cases hgc : (b.store.PerformGC ctx dryRun removeUntagged s).err with
  | some e => rw [prune_of_gc_error b ctx dryRun removeUntagged s e hgc]; simp
  | none =>
    cases hp : (b.store.PerformPurgeUploads ctx dryRun
        (b.store.PerformGC ctx dryRun removeUntagged s).state).err with
    | some e => rw [prune_of_purge_error b ctx dryRun removeUntagged s e hgc hp]; simp
    | none => rw [prune_of_success b ctx dryRun removeUntagged s hgc hp]; simp

/-- The store after a run: as the last stage called left it. -/
theorem prune_state_eq (b : backend κ σ) (ctx : κ) (dryRun removeUntagged : Bool) (s : σ) :
    (b.Prune ctx dryRun removeUntagged s).state =
      (if (b.store.PerformGC ctx dryRun removeUntagged s).err.isNone
        then (b.store.PerformPurgeUploads ctx dryRun
          (b.store.PerformGC ctx dryRun removeUntagged s).state).state
        else (b.store.PerformGC ctx dryRun removeUntagged s).state) := by
  cases hgc : (b.store.PerformGC ctx dryRun removeUntagged s).err with
  | some e => rw [prune_of_gc_error b ctx dryRun removeUntagged s e hgc]; simp
  | none =>
    cases hp : (b.store.PerformPurgeUploads ctx dryRun
        (b.store.PerformGC ctx dryRun removeUntagged s).state).err with
    | some e => rw [prune_of_purge_error b ctx dryRun removeUntagged s e hgc hp]; simp
    | none => rw [prune_of_success b ctx dryRun removeUntagged s hgc hp]; simp

/-- The texts of a wrapped garbage-collection error and of a wrapped
upload-purge error differ in their sixth character. -/
theorem gcLead_append_ne_purgeLead_append (m1 m2 : String) :
    gcLead ++ m1 ≠ purgeLead ++ m2 := by
  intro h
  have hd := congrArg String.data h
  simp only [String.data_append] at hd
  have h5 := congrArg (fun l => l.get? 5) hd
  revert h5
  simp [gcLead, purgeLead]

end PruneLemmas

/-! ## Lemmas on paths -/

namespace filepath

/-- A path has at least one element. -/
theorem splitSlash_ne_nil (p : List Char) : splitSlash p ≠ [] := by
  cases p with
  | nil => simp [splitSlash]
  | cons c cs =>
    unfold splitSlash
    split
    · simp
    · split <;> simp

/-- Splitting distributes over a slash. -/
theorem splitSlash_append_slash (a b : List Char) :
    splitSlash (a ++ '/' :: b) = splitSlash a ++ splitSlash b := by
  induction a with
  | nil => simp [splitSlash]
  | cons c cs ih =>
    by_cases hc : c = '/'
    · simp [splitSlash, hc, ih]
    · have hne := splitSlash_ne_nil cs
      cases hs : splitSlash cs with
      | nil => exact absurd hs hne
      | cons x xs => simp [splitSlash, hc, ih, hs]

/-- A text without a slash is a single element. -/
theorem splitSlash_of_no_slash (x : List Char) (hx : '/' ∉ x) : splitSlash x = [x] := by
  induction x with
  | nil => rfl
  | cons c cs ih =>
    have hc : c ≠ '/' := fun h => hx (by simp [h])
    have hcs : '/' ∉ cs := fun h => hx (List.mem_cons_of_mem _ h)
    simp [splitSlash, hc, ih hcs]

/-- No element of a path contains a slash. -/
theorem splitSlash_no_slash (p : List Char) : ∀ x ∈ splitSlash p, '/' ∉ x := by
  induction p with
  | nil => simp [splitSlash]
  | cons c cs ih =>
    by_cases hc : c = '/'
    · intro x hx
      simp only [splitSlash, hc, if_true, List.mem_cons] at hx
      rcases hx with hx | hx
      · simp [hx]
      · exact ih x hx
    · have hne := splitSlash_ne_nil cs
      cases hs : splitSlash cs with
      | nil => exact absurd hs hne
      | cons y ys =>
        rw [hs] at ih
        intro x hx
        simp only [splitSlash, hc, if_false, hs, List.mem_cons] at hx
        rcases hx with hx | hx
        · subst hx
          have hy := ih y (by simp)
          intro hmem
          rcases List.mem_cons.1 hmem with h | h
          · exact hc h.symm
          · exact hy h
        · exact ih x (by simp [hx])

/-- Splitting undoes writing out, for elements without a slash. -/
theorem splitSlash_joinSlash (l : List (List Char)) (hne : l ≠ [])
    (hl : ∀ x ∈ l, '/' ∉ x) : splitSlash (joinSlash l) = l := by
  induction l with
  | nil => exact absurd rfl hne
  | cons x rest ih =>
    cases rest with
    | nil => exact splitSlash_of_no_slash x (hl x (by simp))
    | cons y more =>
      have hx := splitSlash_of_no_slash x (hl x (by simp))
      have hr := ih (by simp) (fun z hz => hl z (List.mem_cons_of_mem _ hz))
      simp only [joinSlash, splitSlash_append_slash, hx, hr]
      rfl

/-- A round of the loop leaves the stack, pops it, or pushes the element read. -/
theorem cleanStep_cases (rooted : Bool) (out : List (List Char)) (elem : List Char) :
    cleanStep rooted out elem = out ∨ cleanStep rooted out elem = out.tail ∨
      cleanStep rooted out elem = elem :: out := by
  unfold cleanStep
  split
  · exact Or.inl rfl
  · split
    · exact Or.inl rfl
    · split
      · split
        · split
          · split
            · exact Or.inl rfl
            · exact Or.inr (Or.inr rfl)
          · exact Or.inr (Or.inl rfl)
        · split
          · exact Or.inl rfl
          · exact Or.inr (Or.inr rfl)
      · exact Or.inr (Or.inr rfl)

/-- Popping keeps a stack settled. -/
theorem settled_tail (rooted : Bool) (out : List (List Char)) (h : Settled rooted out) :
    Settled rooted out.tail := by
  cases out with
  | nil => exact h
  | cons x rest => exact h.2

/-- A round of the loop keeps the stack settled. -/
theorem settled_cleanStep (rooted : Bool) (out : List (List Char)) (elem : List Char)
    (h : Settled rooted out) : Settled rooted (cleanStep rooted out elem) := by
  rcases cleanStep_cases rooted out elem with hc | hc | hc
  · rw [hc]; exact h
  · rw [hc]; exact settled_tail rooted out h
  · rw [hc]; exact ⟨hc, h⟩

/-- The loop keeps the stack settled. -/
theorem settled_foldl (rooted : Bool) (l : List (List Char)) (out : List (List Char))
    (h : Settled rooted out) : Settled rooted (l.foldl (cleanStep rooted) out) := by
  induction l generalizing out with
  | nil => exact h
  | cons e rest ih => exact ih _ (settled_cleanStep rooted out e h)

/-- A round of the loop keeps the stack free of slashes. -/
theorem noSlash_cleanStep (rooted : Bool) (out : List (List Char)) (elem : List Char)
    (h : ∀ x ∈ out, '/' ∉ x) (he : '/' ∉ elem) :
    ∀ x ∈ cleanStep rooted out elem, '/' ∉ x := by
  rcases cleanStep_cases rooted out elem with hc | hc | hc
  · rw [hc]; exact h
  · rw [hc]; exact fun x hx => h x (List.mem_of_mem_tail hx)
  · rw [hc]
    intro x hx
    rcases List.mem_cons.1 hx with hx | hx
    · rw [hx]; exact he
    · exact h x hx

/-- The loop keeps the stack free of slashes. -/
theorem noSlash_foldl (rooted : Bool) (l : List (List Char)) (out : List (List Char))
    (h : ∀ x ∈ out, '/' ∉ x) (hl : ∀ x ∈ l, '/' ∉ x) :
    ∀ x ∈ l.foldl (cleanStep rooted) out, '/' ∉ x := by
  induction l generalizing out with
  | nil => exact h
  | cons e rest ih =>
    exact ih _ (noSlash_cleanStep rooted out e h (hl e (by simp)))
      (fun x hx => hl x (List.mem_cons_of_mem _ hx))

/-- Running the loop over the elements of a settled stack rebuilds it. -/
theorem settled_refold (rooted : Bool) (out : List (List Char)) (h : Settled rooted out) :
    out.reverse.foldl (cleanStep rooted) [] = out := by
  induction out with
  | nil => rfl
  | cons x rest ih =>
    rw [List.reverse_cons, List.foldl_append, ih h.2]
    exact h.1

/-- No element of a settled stack is empty. -/
theorem settled_mem_ne_nil (rooted : Bool) (out : List (List Char)) (h : Settled rooted out) :
    ∀ x ∈ out, x ≠ [] := by
  induction out with
  | nil => simp
  | cons y rest ih =>
    intro x hx
    rcases List.mem_cons.1 hx with hx | hx
    · subst hx
      intro hnil
      have h1 := h.1
      rw [hnil] at h1
      simp [cleanStep] at h1
    · exact ih h.2 x hx

/-- The written-out text starts with the first character of the first element. -/
theorem joinSlash_head (c : Char) (cs : List Char) (rest : List (List Char)) :
    (joinSlash ((c :: cs) :: rest)).head? = some c := by
  cases rest with
  | nil => simp [joinSlash]
  | cons y more => simp [joinSlash]

/-- The cleaned text is never empty. -/
theorem render_ne_nil (rooted : Bool) (out : List (List Char)) (h : Settled rooted out) :
    render rooted out ≠ [] := by
  unfold render
  split
  · simp
  · split
    · simp
    · rename_i hne
      have hrev : out.reverse ≠ [] := by simpa using hne
      cases hr : out.reverse with
      | nil => exact absurd hr hrev
      | cons x rest =>
        have hx : x ∈ out := by
          have : x ∈ out.reverse := by rw [hr]; simp
          simpa using this
        have hxne := settled_mem_ne_nil rooted out h x hx
        cases x with
        | nil => exact absurd rfl hxne
        | cons c cs =>
          intro hnil
          have := joinSlash_head c cs rest
          rw [hnil] at this
          simp at this

/-- The cleaned text is rooted exactly when the path was. -/
theorem isRooted_render (rooted : Bool) (out : List (List Char)) (h : Settled rooted out)
    (hs : ∀ x ∈ out, '/' ∉ x) : isRooted (render rooted out) = rooted := by
  unfold render isRooted
  cases rooted with
  | true => simp
  | false =>
    simp only [Bool.false_eq_true, if_false]
    split
    · decide
    · rename_i hne
      have hrev : out.reverse ≠ [] := by simpa using hne
      cases hr : out.reverse with
      | nil => exact absurd hr hrev
      | cons x rest =>
        have hx : x ∈ out := by
          have : x ∈ out.reverse := by rw [hr]; simp
          simpa using this
        have hxne := settled_mem_ne_nil false out h x hx
        cases x with
        | nil => exact absurd rfl hxne
        | cons c cs =>
          rw [joinSlash_head]
          have hc : c ≠ '/' := fun hc => hs _ hx (by simp [hc])
          simp [hc]

/-- Cleaning the cleaned text again finds the same stack. -/
theorem restack_render (rooted : Bool) (out : List (List Char)) (h : Settled rooted out)
    (hs : ∀ x ∈ out, '/' ∉ x) :
    (splitSlash (render rooted out)).foldl (cleanStep rooted) [] = out := by
  have hrs : ∀ x ∈ out.reverse, '/' ∉ x := fun x hx => hs x (by simpa using hx)
  by_cases hne : out = []
  · subst hne
    cases rooted <;> simp [render, splitSlash, joinSlash, cleanStep]
  · have hrev : out.reverse ≠ [] := by simpa using hne
    have hsplit := splitSlash_joinSlash out.reverse hrev hrs
    cases rooted with
    | true =>
      simp only [render, if_true, splitSlash, List.foldl_cons, hsplit]
      have : cleanStep true [] [] = [] := by simp [cleanStep]
      rw [this]
      exact settled_refold true out h
    | false =>
      simp only [render, Bool.false_eq_true, if_false, hne, hsplit]
      exact settled_refold false out h

/-- Appending to a non-empty path does not change whether it is rooted. -/
theorem isRooted_append (p q : List Char) (hp : p ≠ []) : isRooted (p ++ q) = isRooted p := by
  cases p with
  | nil => exact absurd rfl hp
  | cons c cs => simp [isRooted]

/-- Cleaning is absorbed by a later join: cleaning `p`, appending `/q` and
cleaning again gives what cleaning `p/q` gives. -/
theorem cleanChars_append (p q : List Char) (hp : p ≠ []) :
    cleanChars (cleanChars p ++ '/' :: q) = cleanChars (p ++ '/' :: q) := by
  have hset : Settled (isRooted p) ((splitSlash p).foldl (cleanStep (isRooted p)) []) :=
    settled_foldl _ _ _ trivial
  have hns : ∀ x ∈ (splitSlash p).foldl (cleanStep (isRooted p)) [], '/' ∉ x :=
    noSlash_foldl _ _ _ (by simp) (splitSlash_no_slash p)
  have hcp : cleanChars p =
      render (isRooted p) ((splitSlash p).foldl (cleanStep (isRooted p)) []) := by
    simp [cleanChars, hp]
  have hne := render_ne_nil _ _ hset
  have hroot := isRooted_render _ _ hset hns
  have hstack := restack_render _ _ hset hns
  rw [hcp]
  unfold cleanChars
  rw [if_neg (by simp [hne]), if_neg (by simp [hp]), isRooted_append _ _ hne, hroot,
    isRooted_append _ _ hp, splitSlash_append_slash, splitSlash_append_slash,
    List.foldl_append, List.foldl_append, hstack]


/-- The function `Clean` never returns the empty text. -/
theorem cleanChars_ne_nil (p : List Char) : cleanChars p ≠ [] := by
  unfold cleanChars
  split
  · simp
  · exact render_ne_nil _ _ (settled_foldl _ _ _ trivial)

/-- The function `Clean` never returns the empty string. -/
theorem Clean_ne_empty (p : String) : Clean p ≠ "" := by
  intro h
  have := congrArg String.data h
  exact cleanChars_ne_nil p.data this

/-- The join of two elements, the first non-empty. -/
theorem Join_pair (a b : String) (ha : a ≠ "") :
    Join [a, b] = String.mk (cleanChars (a.data ++ '/' :: b.data)) := by
  simp [Join, ha, stringsJoin, Clean, String.data_append]

/-- Joining in two steps is joining once: `Join(Join(a, b), c) = Join(a, b + "/" + c)`
for a non-empty `b`. -/
theorem Join_Join (a b c : String) (hb : b ≠ "") :
    Join [Join [a, b], c] = Join [a, b ++ "/" ++ c] := by
  have hbd : b.data ≠ [] := fun h => hb (String.ext h)
  by_cases ha : a = ""
  · subst ha
    have h1 : Join ["", b] = Clean b := by simp [Join, hb, stringsJoin]
    have h2 : Join ["", b ++ "/" ++ c] = Clean (b ++ "/" ++ c) := by
      have : b ++ "/" ++ c ≠ "" := by
        intro h
        have := congrArg String.data h
        simp [String.data_append] at this
      simp [Join, this, stringsJoin]
    rw [h1, h2, Join_pair _ _ (Clean_ne_empty b)]
    simp only [Clean, String.data_append]
    rw [cleanChars_append _ _ hbd]
    simp
  · rw [Join_pair a b ha, Join_pair a _ ha, Join_pair _ c]
    · simp only [String.data_append]
      rw [cleanChars_append _ _ (by simp)]
      simp
    · intro h
      have := congrArg String.data h
      exact cleanChars_ne_nil _ this


/-- Writing out one more element appends a slash and the element. -/
theorem joinSlash_snoc (l : List (List Char)) (x : List Char) (hl : l ≠ []) :
    joinSlash (l ++ [x]) = joinSlash l ++ '/' :: x := by
  induction l with
  | nil => exact absurd rfl hl
  | cons y rest ih =>
    cases rest with
    | nil => simp [joinSlash]
    | cons z more =>
      have := ih (by simp)
      simp only [List.cons_append] at this ⊢
      simp [joinSlash, this]

/-- A plain element is always pushed. -/
theorem cleanStep_plain (rooted : Bool) (out : List (List Char)) (x : List Char)
    (hx : Plain x) : cleanStep rooted out x = x :: out := by
  simp [cleanStep, hx.1, hx.2.1, hx.2.2.1]

/-- The text of a stack with one more element on a non-empty stack. -/
theorem render_push (rooted : Bool) (out : List (List Char)) (x : List Char)
    (hout : out ≠ []) : render rooted (x :: out) = render rooted out ++ '/' :: x := by
  have hrev : out.reverse ≠ [] := by simpa using hout
  cases rooted <;> simp [render, hout, joinSlash_snoc _ _ hrev]

/-- A plain element joined after another plain element lands directly
inside it: cleaning `h/a/b` gives the cleaning of `h/a` followed by `/b`. -/
theorem cleanChars_plain_plain (h a b : List Char) (hh : h ≠ []) (ha : Plain a)
    (hb : Plain b) :
    cleanChars (h ++ '/' :: (a ++ '/' :: b)) = cleanChars (h ++ '/' :: a) ++ '/' :: b := by
  unfold cleanChars
  rw [if_neg (by simp [hh]), if_neg (by simp [hh]), isRooted_append _ _ hh,
    isRooted_append _ _ hh, splitSlash_append_slash, splitSlash_append_slash,
    splitSlash_append_slash, splitSlash_of_no_slash a ha.2.2.2,
    splitSlash_of_no_slash b hb.2.2.2]
  simp only [List.foldl_append, List.foldl_cons, List.foldl_nil]
  rw [cleanStep_plain _ _ a ha, cleanStep_plain _ _ b hb]
  exact render_push _ _ b (by simp)

/-- For a plain `b` and `c`, joining `a` with `b/c` puts `c` directly inside
the join of `a` and `b`. -/
theorem Join_plain_plain (a b c : String) (ha : a ≠ "") (hb : Plain b.data) (hc : Plain c.data) :
    Join [a, b ++ "/" ++ c] = Join [a, b] ++ "/" ++ c := by
  have had : a.data ≠ [] := fun h => ha (String.ext h)
  rw [Join_pair a _ ha, Join_pair a b ha]
  apply String.ext
  simp only [String.data_append]
  have := cleanChars_plain_plain a.data b.data c.data had hb hc
  simpa using this

/-- The examples in the documentation of `filepath.Join` and `filepath.Clean`. -/
theorem Join_examples :
    Join ["a", "b", "c"] = "a/b/c" ∧ Join ["a", "b/c"] = "a/b/c" ∧
      Join ["a/b", "c"] = "a/b/c" ∧ Join ["a/b", "/c"] = "a/b/c" ∧
      Join ["a/b", "../../../xyz"] = "../xyz" ∧ Join ["", ""] = "" ∧ Join ["", "a"] = "a" ∧
      Clean "" = "." ∧ Clean "/../a//b/./c/.." = "/a/b" ∧ Clean "a/../.." = ".." ∧
      Clean "/" = "/" ∧ Clean "abc/" = "abc" := by
  decide

end filepath

/-! ## Lemmas on the walk and the sweep -/

section WalkLemmas

/-- Marking a digest live takes its references off the pending count. -/
theorem pending_step_aux (bs : List Blob) (live : List Digest) (d : Digest) (hd : d ∉ live) :
    ((bs.filter (fun b => decide (b.digest ∉ d :: live))).map
        (fun b => (b.refs.getD []).length)).sum +
      (match bs.find? (fun b : Blob => b.digest == d) with
        | some b => b.refs.getD []
        | none => ([] : List Digest)).length ≤
    ((bs.filter (fun b => decide (b.digest ∉ live))).map
        (fun b => (b.refs.getD []).length)).sum := by
  induction bs with
  | nil => simp
  | cons b rest ih =>
    by_cases hb : b.digest = d
    · subst hb
      have h1 : b.digest ∈ b.digest :: live := by simp
      simp only [List.filter_cons, h1, hd, not_true_eq_false, decide_False, not_false_eq_true,
        decide_True, if_true, List.map_cons, List.sum_cons, List.find?_cons, beq_self_eq_true,
        Bool.false_eq_true, if_false] at ih ⊢
      omega
    · have h1 : b.digest ∈ d :: live ↔ b.digest ∈ live := by simp [hb]
      have h3 : (b.digest == d) = false := by simpa using hb
      by_cases h2 : b.digest ∈ live
      · have h1' := h1.2 h2
        simp only [List.filter_cons, h1', h2, not_true_eq_false, decide_False,
          Bool.false_eq_true, if_false, List.find?_cons, h3]
        exact ih
      · have h1' : b.digest ∉ d :: live := fun h => h2 (h1.1 h)
        simp only [List.filter_cons, h1', h2, not_false_eq_true, decide_True, if_true,
          List.map_cons, List.sum_cons, List.find?_cons, h3]
        omega

/-- Marking a digest live takes its references off the pending count of the store. -/
theorem Registry.pending_step (s : Registry) (live : List Digest) (d : Digest) (hd : d ∉ live) :
    s.pending (d :: live) + (s.refsOf d).length ≤ s.pending live :=
  pending_step_aux s.blobs live d hd

/-- The walk, given enough pops, returns a set that contains what was marked
live and what was on the worklist, and is closed under references. -/
theorem Registry.walk_closed (s : Registry) (fuel : Nat) :
    ∀ (work live : List Digest), work.length + s.pending live ≤ fuel →
      (∀ x ∈ live, ∀ c ∈ s.refsOf x, c ∈ live ∨ c ∈ work) →
      (∀ x ∈ live, x ∈ s.walk fuel work live) ∧
      (∀ x ∈ work, x ∈ s.walk fuel work live) ∧
      (∀ x ∈ s.walk fuel work live, ∀ c ∈ s.refsOf x, c ∈ s.walk fuel work live) := by
  induction fuel with
  | zero =>
    intro work live hfuel hinv
    have hw : work = [] := by
      cases work with
      | nil => rfl
      | cons d rest => simp at hfuel
    subst hw
    refine ⟨fun x hx => by simpa [Registry.walk] using hx, by simp, ?_⟩
    intro x hx c hc
    simp only [Registry.walk] at hx ⊢
    rcases hinv x hx c hc with h | h
    · exact h
    · simp at h
  | succ fuel ih =>
    intro work live hfuel hinv
    cases work with
    | nil =>
      refine ⟨fun x hx => by simpa [Registry.walk] using hx, by simp, ?_⟩
      intro x hx c hc
      simp only [Registry.walk] at hx ⊢
      rcases hinv x hx c hc with h | h
      · exact h
      · simp at h
    | cons d rest =>
      by_cases hd : d ∈ live
      · have hw : s.walk (fuel + 1) (d :: rest) live = s.walk fuel rest live := by
          simp [Registry.walk, hd]
        rw [hw]
        have hfuel' : rest.length + s.pending live ≤ fuel := by
          simp only [List.length_cons] at hfuel; omega
        have hinv' : ∀ x ∈ live, ∀ c ∈ s.refsOf x, c ∈ live ∨ c ∈ rest := by
          intro x hx c hc
          rcases hinv x hx c hc with h | h
          · exact Or.inl h
          · rcases List.mem_cons.1 h with h | h
            · exact Or.inl (h ▸ hd)
            · exact Or.inr h
        obtain ⟨h1, h2, h3⟩ := ih rest live hfuel' hinv'
        refine ⟨h1, ?_, h3⟩
        intro x hx
        rcases List.mem_cons.1 hx with hx | hx
        · exact h1 x (hx ▸ hd)
        · exact h2 x hx
      · have hw : s.walk (fuel + 1) (d :: rest) live =
            s.walk fuel (s.refsOf d ++ rest) (d :: live) := by
          simp [Registry.walk, hd]
        rw [hw]
        have hp := s.pending_step live d hd
        have hfuel' : (s.refsOf d ++ rest).length + s.pending (d :: live) ≤ fuel := by
          simp only [List.length_cons, List.length_append] at hfuel ⊢; omega
        have hinv' : ∀ x ∈ d :: live, ∀ c ∈ s.refsOf x,
            c ∈ d :: live ∨ c ∈ s.refsOf d ++ rest := by
          intro x hx c hc
          rcases List.mem_cons.1 hx with hx | hx
          · subst hx
            exact Or.inr (List.mem_append_left _ hc)
          · rcases hinv x hx c hc with h | h
            · exact Or.inl (List.mem_cons_of_mem _ h)
            · rcases List.mem_cons.1 h with h | h
              · exact Or.inl (by simp [h])
              · exact Or.inr (List.mem_append_right _ h)
        obtain ⟨h1, h2, h3⟩ := ih (s.refsOf d ++ rest) (d :: live) hfuel' hinv'
        refine ⟨fun x hx => h1 x (List.mem_cons_of_mem _ hx), ?_, h3⟩
        intro x hx
        rcases List.mem_cons.1 hx with hx | hx
        · exact h1 x (by simp [hx])
        · exact h2 x (List.mem_append_right _ hx)

/-- The pending count of the empty live set is within the pop bound. -/
theorem Registry.pending_nil_le (s : Registry) :
    s.pending [] ≤ (s.blobs.map (fun b => (b.refs.getD []).length)).sum := by
  simp [Registry.pending]

/-- No false negatives: every reachable digest is in the set the walk from
the roots returns. -/
theorem Registry.reachable_mem_walk (s : Registry) (removeUntagged : Bool) (d : Digest)
    (h : Registry.Reachable s removeUntagged d) :
    d ∈ s.walk (s.walkBound removeUntagged) (s.roots removeUntagged) [] := by
  have hfuel : (s.roots removeUntagged).length + s.pending [] ≤ s.walkBound removeUntagged := by
    have := s.pending_nil_le
    simp only [Registry.walkBound]; omega
  obtain ⟨_, h2, h3⟩ := s.walk_closed (s.walkBound removeUntagged)
    (s.roots removeUntagged) [] hfuel (by simp)
  induction h with
  | root d hd => exact h2 d hd
  | step m d _ hmd ih => exact h3 m ih d hmd

end WalkLemmas


section SweepLemmas

/-- The sweep keeps every stored blob whose digest is live. -/
theorem Registry.sweep_keeps_live (live : List Digest) (dryRun : Bool) (inventory : List Digest) :
    ∀ (s : Registry) (rep : Report) (b : Blob), b ∈ s.blobs → b.digest ∈ live →
      b ∈ (Registry.sweep live dryRun inventory s rep).2.blobs := by
  induction inventory with
  | nil => intro s rep b hb _; simpa [Registry.sweep] using hb
  | cons d rest ih =>
    intro s rep b hb hlive
    unfold Registry.sweep
    split
    · exact ih _ _ b hb hlive
    · rename_i hd
      split
      · exact ih _ _ b hb hlive
      · split
        · rename_i s' hdel
          apply ih _ _ b _ hlive
          unfold Registry.DeleteBlob at hdel
          split at hdel
          · cases hdel
          · cases hdel
            have hne : b.digest ≠ d := fun h => hd (h ▸ hlive)
            simp [hb, hne]
        · exact ih _ _ b hb hlive

/-- The garbage-collection stage keeps every stored blob whose digest is reachable. -/
theorem Registry.PerformGC_keeps_reachable (s : Registry) (ctx : Context)
    (dryRun removeUntagged : Bool) (b : Blob) (hb : b ∈ s.blobs)
    (hr : Registry.Reachable s removeUntagged b.digest) :
    b ∈ (Registry.PerformGC ctx dryRun removeUntagged s).state.blobs := by
  unfold Registry.PerformGC
  split
  · exact hb
  · rename_i live hlive
    have hmem : b.digest ∈ live := by
      unfold Registry.ComputeLiveSet at hlive
      split at hlive
      · cases hlive
      · split at hlive
        · cases hlive
        · cases hlive
          exact s.reachable_mem_walk removeUntagged b.digest hr
    split
    · exact hb
    · rename_i rep s' hcol
      unfold Registry.Collect at hcol
      split at hcol
      · cases hcol
      · split at hcol
        · cases hcol
        · have h2 := Registry.sweep_keeps_live live dryRun s.ListBlobDigests s
            { kept := 0, deleted := [], reclaimed := 0, errors := [] } b hb hmem
          simp only [Except.ok.injEq] at hcol
          rw [hcol] at h2
          exact h2

/-- The upload purge does not touch the blob inventory. -/
theorem Registry.PerformPurgeUploads_blobs (s : Registry) (ctx : Context) (dryRun : Bool) :
    (Registry.PerformPurgeUploads ctx dryRun s).state.blobs = s.blobs := by
  unfold Registry.PerformPurgeUploads Registry.PurgeUploads
  split
  · rfl
  · rename_i l s' h
    split at h
    · cases h
    · split at h
      · cases h
      · split at h <;> cases h <;> rfl

/-- The sweep reports as deleted only digests outside the live set. -/
theorem Registry.sweep_deleted_not_live (live : List Digest) (dryRun : Bool)
    (inventory : List Digest) :
    ∀ (s : Registry) (rep : Report), ∀ d ∈ (Registry.sweep live dryRun inventory s rep).1.deleted,
      d ∈ rep.deleted ∨ d ∉ live := by
  induction inventory with
  | nil => intro s rep d hd; exact Or.inl (by simpa [Registry.sweep] using hd)
  | cons x rest ih =>
    intro s rep d hd
    unfold Registry.sweep at hd
    split at hd
    · have h := ih _ _ d hd
      exact h
    · rename_i hx
      split at hd
      · rcases ih _ _ d hd with h | h
        · rcases List.mem_append.1 h with h | h
          · exact Or.inl h
          · exact Or.inr (by rw [List.mem_singleton.1 h]; exact hx)
        · exact Or.inr h
      · split at hd
        · rcases ih _ _ d hd with h | h
          · rcases List.mem_append.1 h with h | h
            · exact Or.inl h
            · exact Or.inr (by rw [List.mem_singleton.1 h]; exact hx)
          · exact Or.inr h
        · have h := ih _ _ d hd
          exact h

end SweepLemmas

/-! ## The claims about `Prune` -/

/-- C1: for every store and flags, if the garbage-collection stage returns an
error then `Prune` returns a non-nil error and no call of that run is the
upload-purge stage. -/
theorem prune_gc_failure_aborts {κ σ : Type} (b : backend κ σ) (ctx : κ)
    (dryRun removeUntagged : Bool) (s : σ) (e : GoError)
    (h : (b.store.PerformGC ctx dryRun removeUntagged s).err = some e) :
    (b.Prune ctx dryRun removeUntagged s).err ≠ none ∧
      ∀ c ∈ (b.Prune ctx dryRun removeUntagged s).calls, c.isPurge = false := by
  rw [prune_of_gc_error b ctx dryRun removeUntagged s e h]
  simp [StoreCall.isPurge]

/-- Witness of C1: a store whose garbage collection fails. -/
theorem prune_gc_failure_aborts_witness :
    ((counterStore (some ioFailure) none).PerformGC () false true 0).err = some ioFailure ∧
      ((backend.mk (counterStore (some ioFailure) none)).Prune () false true 0).err ≠ none ∧
      ∀ c ∈ ((backend.mk (counterStore (some ioFailure) none)).Prune () false true 0).calls,
        c.isPurge = false :=
  ⟨rfl, prune_gc_failure_aborts (backend.mk (counterStore (some ioFailure) none))
    () false true 0 ioFailure rfl⟩

/-- C2: the stage calls of `Prune` are fixed and sequential: the
garbage-collection stage comes first and exactly once, and it is followed by
exactly one upload-purge call when it returned nil and by nothing when it
returned an error; the purge, when called, runs on the store as the
garbage-collection stage left it. -/
theorem prune_call_sequence {κ σ : Type} (b : backend κ σ) (ctx : κ)
    (dryRun removeUntagged : Bool) (s : σ) :
    (b.Prune ctx dryRun removeUntagged s).calls =
        StoreCall.PerformGC ctx dryRun removeUntagged ::
          (if (b.store.PerformGC ctx dryRun removeUntagged s).err.isNone
            then [StoreCall.PerformPurgeUploads ctx dryRun] else []) ∧
      (b.Prune ctx dryRun removeUntagged s).state =
        (if (b.store.PerformGC ctx dryRun removeUntagged s).err.isNone
          then (b.store.PerformPurgeUploads ctx dryRun
            (b.store.PerformGC ctx dryRun removeUntagged s).state).state
          else (b.store.PerformGC ctx dryRun removeUntagged s).state) :=
  ⟨prune_calls_eq b ctx dryRun removeUntagged s, prune_state_eq b ctx dryRun removeUntagged s⟩

/-- C3: `Prune` invokes the garbage-collection stage with exactly the caller's
`ctx`, `dryRun` and `removeUntagged`: that call is issued in every run and is
the first one; when the garbage collection returned nil it invokes the purge
stage with exactly the caller's `ctx` and `dryRun`, and the store it returns
is the one these invocations left. No other call is issued: every call is one
of these two, so every call of a run has the caller's `dryRun`, and a dry-run
prune issues its calls with `dryRun = true` and none with `dryRun = false`. -/
theorem prune_passes_flags {κ σ : Type} (b : backend κ σ) (ctx : κ)
    (dryRun removeUntagged : Bool) (s : σ) :
    (b.Prune ctx dryRun removeUntagged s).calls =
        StoreCall.PerformGC ctx dryRun removeUntagged ::
          (if (b.store.PerformGC ctx dryRun removeUntagged s).err.isNone
            then [StoreCall.PerformPurgeUploads ctx dryRun] else []) ∧
      (b.Prune ctx dryRun removeUntagged s).calls.head? =
        some (StoreCall.PerformGC ctx dryRun removeUntagged) ∧
      StoreCall.PerformGC ctx dryRun removeUntagged ∈
        (b.Prune ctx dryRun removeUntagged s).calls ∧
      ((b.store.PerformGC ctx dryRun removeUntagged s).err = none →
        StoreCall.PerformPurgeUploads ctx dryRun ∈
          (b.Prune ctx dryRun removeUntagged s).calls) ∧
      (b.Prune ctx dryRun removeUntagged s).state =
        (if (b.store.PerformGC ctx dryRun removeUntagged s).err.isNone
          then (b.store.PerformPurgeUploads ctx dryRun
            (b.store.PerformGC ctx dryRun removeUntagged s).state).state
          else (b.store.PerformGC ctx dryRun removeUntagged s).state) ∧
      StoreCall.PerformGC ctx true removeUntagged ∈
        (b.Prune ctx true removeUntagged s).calls ∧
      (∀ c ∈ (b.Prune ctx dryRun removeUntagged s).calls,
        c = StoreCall.PerformGC ctx dryRun removeUntagged ∨
          c = StoreCall.PerformPurgeUploads ctx dryRun) ∧
      (∀ c ∈ (b.Prune ctx dryRun removeUntagged s).calls, c.dryRun = dryRun) ∧
      (∀ c ∈ (b.Prune ctx true removeUntagged s).calls, c.dryRun ≠ false) := by
  have key : ∀ d : Bool, ∀ c ∈ (b.Prune ctx d removeUntagged s).calls,
      c = StoreCall.PerformGC ctx d removeUntagged ∨
        c = StoreCall.PerformPurgeUploads ctx d := by
    intro d c hc
    rw [prune_calls_eq b ctx d removeUntagged s] at hc
    split at hc <;> simp at hc <;> tauto
  have hmem : ∀ d : Bool, StoreCall.PerformGC ctx d removeUntagged ∈
      (b.Prune ctx d removeUntagged s).calls := by
    intro d
    rw [prune_calls_eq b ctx d removeUntagged s]
    exact List.mem_cons_self _ _
  refine ⟨prune_calls_eq b ctx dryRun removeUntagged s, ?_, hmem dryRun, ?_,
    prune_state_eq b ctx dryRun removeUntagged s, hmem true, key dryRun, ?_, ?_⟩
  · rw [prune_calls_eq b ctx dryRun removeUntagged s]
    rfl
  · intro hgc
    rw [prune_calls_eq b ctx dryRun removeUntagged s, hgc]
    simp
  · intro c hc
    rcases key dryRun c hc with h | h <;> subst h <;> rfl
  · intro c hc
    rcases key true c hc with h | h <;> subst h <;> simp [StoreCall.dryRun]

/-- Witness of C3: a dry run on a store whose stages succeed issues the
garbage-collection call and the purge call, both with `dryRun = true`. -/
theorem prune_passes_flags_witness :
    ((backend.mk (counterStore none none)).Prune () true false 0).calls =
        [StoreCall.PerformGC () true false, StoreCall.PerformPurgeUploads () true] ∧
      StoreCall.PerformPurgeUploads () true ∈
        ((backend.mk (counterStore none none)).Prune () true false 0).calls ∧
      ((backend.mk (counterStore none none)).Prune () true false 0).state = 0 :=
  ⟨(prune_passes_flags (backend.mk (counterStore none none)) () true false 0).1,
    (prune_passes_flags (backend.mk (counterStore none none)) () true false 0).2.2.2.1 rfl,
    (prune_passes_flags (backend.mk (counterStore none none)) () true false 0).2.2.2.2.1⟩

/-- C4: when `Prune` fails, the error it returns is the error of the failed
stage wrapped under that stage's text: its message is the stage text followed
by the stage error's message; and no message built for a garbage-collection
failure equals a message built for a purge failure, whatever the two
underlying errors are. -/
theorem prune_error_names_stage {κ σ : Type} (b : backend κ σ) (ctx : κ)
    (dryRun removeUntagged : Bool) (s : σ) (e : GoError)
    (h : (b.Prune ctx dryRun removeUntagged s).err = some e) :
    ((∃ e1, (b.store.PerformGC ctx dryRun removeUntagged s).err = some e1 ∧
          e = Errorf gcLead e1 ∧ e.Error = gcLead ++ e1.Error) ∨
        (∃ e2, (b.store.PerformGC ctx dryRun removeUntagged s).err = none ∧
          (b.store.PerformPurgeUploads ctx dryRun
            (b.store.PerformGC ctx dryRun removeUntagged s).state).err = some e2 ∧
          e = Errorf purgeLead e2 ∧ e.Error = purgeLead ++ e2.Error)) ∧
      ∀ e1 e2 : GoError, (Errorf gcLead e1).Error ≠ (Errorf purgeLead e2).Error := by
  refine ⟨?_, fun e1 e2 => gcLead_append_ne_purgeLead_append e1.Error e2.Error⟩
  cases hgc : (b.store.PerformGC ctx dryRun removeUntagged s).err with
  | some e1 =>
    rw [prune_of_gc_error b ctx dryRun removeUntagged s e1 hgc] at h
    simp only [Option.some.injEq] at h
    exact Or.inl ⟨e1, rfl, h.symm, by rw [← h]; rfl⟩
  | none =>
    cases hp : (b.store.PerformPurgeUploads ctx dryRun
        (b.store.PerformGC ctx dryRun removeUntagged s).state).err with
    | some e2 =>
      rw [prune_of_purge_error b ctx dryRun removeUntagged s e2 hgc hp] at h
      simp only [Option.some.injEq] at h
      exact Or.inr ⟨e2, rfl, rfl, h.symm, by rw [← h]; rfl⟩
    | none =>
      rw [prune_of_success b ctx dryRun removeUntagged s hgc hp] at h
      simp at h

/-- Witness of C4: a run whose purge stage fails. -/
theorem prune_error_names_stage_witness :
    ((backend.mk (counterStore none (some ioFailure))).Prune () false true 0).err =
        some (Errorf purgeLead ioFailure) ∧
      (Errorf purgeLead ioFailure).Error = "failed to perform purge uploads: storage unreachable" ∧
      ∀ e1 e2 : GoError, (Errorf gcLead e1).Error ≠ (Errorf purgeLead e2).Error :=
  ⟨rfl, by decide,
    (prune_error_names_stage (backend.mk (counterStore none (some ioFailure)))
      () false true 0 (Errorf purgeLead ioFailure) rfl).2⟩

/-- C5: if either stage returns an error `c` (the purge stage being reached
only after a successful garbage collection), `Prune` returns a non-nil error
whose `Unwrap()` is exactly `c`; that error tests as cancellation when `c` is
or wraps a cancellation error, and does not when `c` has no cancellation
error on its unwrap chain. -/
theorem prune_cancellation_distinguished {κ σ : Type} (b : backend κ σ) (ctx : κ)
    (dryRun removeUntagged : Bool) (s : σ) (c : GoError)
    (h : (b.store.PerformGC ctx dryRun removeUntagged s).err = some c ∨
      ((b.store.PerformGC ctx dryRun removeUntagged s).err = none ∧
        (b.store.PerformPurgeUploads ctx dryRun
          (b.store.PerformGC ctx dryRun removeUntagged s).state).err = some c)) :
    ∃ e, (b.Prune ctx dryRun removeUntagged s).err = some e ∧ e.Unwrap = some c ∧
      (c.IsCancellation = true → e.IsCancellation = true) ∧
      (c.IsCancellation = false → e.IsCancellation = false) := by
  rcases h with h | ⟨hgc, hp⟩
  · rw [prune_of_gc_error b ctx dryRun removeUntagged s c h]
    exact ⟨Errorf gcLead c, rfl, rfl, fun hc => hc, fun hc => hc⟩
  · rw [prune_of_purge_error b ctx dryRun removeUntagged s c hgc hp]
    exact ⟨Errorf purgeLead c, rfl, rfl, fun hc => hc, fun hc => hc⟩

/-- Witness of C5: the garbage collection is cancelled. -/
theorem prune_cancellation_distinguished_witness :
    ((counterStore (some Canceled) none).PerformGC () false false 0).err = some Canceled ∧
      Canceled.IsCancellation = true ∧
      ∃ e, ((backend.mk (counterStore (some Canceled) none)).Prune () false false 0).err = some e ∧
        e.Unwrap = some Canceled ∧
        (Canceled.IsCancellation = true → e.IsCancellation = true) ∧
        (Canceled.IsCancellation = false → e.IsCancellation = false) :=
  ⟨rfl, rfl, prune_cancellation_distinguished (backend.mk (counterStore (some Canceled) none))
    () false false 0 Canceled (Or.inl rfl)⟩

/-- C6: for a store whose stages return, in a dry run and in a real run, the
same results whichever `dryRun` value they receive, `Prune` with
`dryRun = true` and with `dryRun = false` issue the same stage calls up to
the `dryRun` argument, return the same error (nil or not, with the same
message and the same wrapped cause) and log the same lines. -/
theorem prune_dry_run_same_shape {κ σ : Type} (b : backend κ σ) (ctx : κ)
    (removeUntagged : Bool) (s : σ)
    (hGC : (b.store.PerformGC ctx true removeUntagged s).err =
      (b.store.PerformGC ctx false removeUntagged s).err)
    (hPurge : (b.store.PerformPurgeUploads ctx true
        (b.store.PerformGC ctx true removeUntagged s).state).err =
      (b.store.PerformPurgeUploads ctx false
        (b.store.PerformGC ctx false removeUntagged s).state).err) :
    (b.Prune ctx true removeUntagged s).calls.map StoreCall.eraseDryRun =
        (b.Prune ctx false removeUntagged s).calls.map StoreCall.eraseDryRun ∧
      (b.Prune ctx true removeUntagged s).err = (b.Prune ctx false removeUntagged s).err ∧
      (b.Prune ctx true removeUntagged s).logs = (b.Prune ctx false removeUntagged s).logs := by
  cases hgc : (b.store.PerformGC ctx false removeUntagged s).err with
  | some e =>
    rw [prune_of_gc_error b ctx false removeUntagged s e hgc,
      prune_of_gc_error b ctx true removeUntagged s e (hGC.trans hgc)]
    simp [StoreCall.eraseDryRun]
  | none =>
    cases hp : (b.store.PerformPurgeUploads ctx false
        (b.store.PerformGC ctx false removeUntagged s).state).err with
    | some e =>
      rw [prune_of_purge_error b ctx false removeUntagged s e hgc hp,
        prune_of_purge_error b ctx true removeUntagged s e (hGC.trans hgc) (hPurge.trans hp)]
      simp [StoreCall.eraseDryRun]
    | none =>
      rw [prune_of_success b ctx false removeUntagged s hgc hp,
        prune_of_success b ctx true removeUntagged s (hGC.trans hgc) (hPurge.trans hp)]
      simp [StoreCall.eraseDryRun]

/-- Witness of C6: a store whose real run changes its state and whose purge
fails in both runs. -/
theorem prune_dry_run_same_shape_witness :
    ((backend.mk (counterStore none (some ioFailure))).Prune () true true 0).state ≠
        ((backend.mk (counterStore none (some ioFailure))).Prune () false true 0).state ∧
      ((backend.mk (counterStore none (some ioFailure))).Prune () true true 0).calls.map
          StoreCall.eraseDryRun =
        ((backend.mk (counterStore none (some ioFailure))).Prune () false true 0).calls.map
          StoreCall.eraseDryRun ∧
      ((backend.mk (counterStore none (some ioFailure))).Prune () true true 0).err =
        ((backend.mk (counterStore none (some ioFailure))).Prune () false true 0).err ∧
      ((backend.mk (counterStore none (some ioFailure))).Prune () true true 0).logs =
        ((backend.mk (counterStore none (some ioFailure))).Prune () false true 0).logs :=
  ⟨by decide, prune_dry_run_same_shape (backend.mk (counterStore none (some ioFailure)))
    () true 0 rfl rfl⟩

/-- C9: `Prune` returns nil exactly when the garbage-collection stage returned
nil and the purge stage, run on the store it left, returned nil; a
garbage-collection error is returned wrapped under the garbage-collection
text whatever the purge stage would do, and a purge error is returned wrapped
under the purge text only after a successful garbage collection. -/
theorem prune_nil_iff_and_first_failure {κ σ : Type} (b : backend κ σ) (ctx : κ)
    (dryRun removeUntagged : Bool) (s : σ) :
    ((b.Prune ctx dryRun removeUntagged s).err = none ↔
        ((b.store.PerformGC ctx dryRun removeUntagged s).err = none ∧
          (b.store.PerformPurgeUploads ctx dryRun
            (b.store.PerformGC ctx dryRun removeUntagged s).state).err = none)) ∧
      (∀ e, (b.store.PerformGC ctx dryRun removeUntagged s).err = some e →
        (b.Prune ctx dryRun removeUntagged s).err = some (GoError.wrap (gcLead ++ e.Error) e)) ∧
      (∀ e, (b.store.PerformGC ctx dryRun removeUntagged s).err = none →
        (b.store.PerformPurgeUploads ctx dryRun
          (b.store.PerformGC ctx dryRun removeUntagged s).state).err = some e →
        (b.Prune ctx dryRun removeUntagged s).err =
          some (GoError.wrap (purgeLead ++ e.Error) e)) := by
  refine ⟨?_, ?_, ?_⟩
  · cases hgc : (b.store.PerformGC ctx dryRun removeUntagged s).err with
    | some e => rw [prune_of_gc_error b ctx dryRun removeUntagged s e hgc]; simp
    | none =>
      cases hp : (b.store.PerformPurgeUploads ctx dryRun
          (b.store.PerformGC ctx dryRun removeUntagged s).state).err with
      | some e => rw [prune_of_purge_error b ctx dryRun removeUntagged s e hgc hp]; simp
      | none => rw [prune_of_success b ctx dryRun removeUntagged s hgc hp]; simp
  · intro e hgc
    rw [prune_of_gc_error b ctx dryRun removeUntagged s e hgc]; rfl
  · intro e hgc hp
    rw [prune_of_purge_error b ctx dryRun removeUntagged s e hgc hp]; rfl

/-- Witness of C9: both stages fail, and only the garbage-collection error is
returned. -/
theorem prune_nil_iff_and_first_failure_witness :
    ((backend.mk (counterStore (some Canceled) (some ioFailure))).Prune () false true 0).err =
      some (GoError.wrap (gcLead ++ Canceled.Error) Canceled) :=
  (prune_nil_iff_and_first_failure (backend.mk (counterStore (some Canceled) (some ioFailure)))
    () false true 0).2.1 Canceled rfl

/-- C7: for every state of the store of the design, a stored blob whose
digest is reachable from the roots is in the live set the walk computes, is
not among the digests the non-dry-run sweep reports deleted, and is still
stored after the non-dry-run `Prune`. -/
theorem prune_keeps_reachable (s : Registry) (ctx : Context) (removeUntagged : Bool) (b : Blob)
    (hb : b ∈ s.blobs) (hr : Registry.Reachable s removeUntagged b.digest) :
    (∀ live, s.ComputeLiveSet ctx removeUntagged = Except.ok live →
        b.digest ∈ live ∧
          ∀ rep s', s.Collect ctx live false = Except.ok (rep, s') →
            b.digest ∉ rep.deleted ∧ b ∈ s'.blobs) ∧
      b ∈ ((backend.mk registryStore).Prune ctx false removeUntagged s).state.blobs := by
  constructor
  · intro live hlive
    have hmem : b.digest ∈ live := by
      unfold Registry.ComputeLiveSet at hlive
      split at hlive
      · cases hlive
      · split at hlive
        · cases hlive
        · cases hlive
          exact s.reachable_mem_walk removeUntagged b.digest hr
    refine ⟨hmem, ?_⟩
    intro rep s' hcol
    unfold Registry.Collect at hcol
    split at hcol
    · cases hcol
    · split at hcol
      · cases hcol
      · simp only [Except.ok.injEq] at hcol
        have h1 := Registry.sweep_deleted_not_live live false s.ListBlobDigests s
          { kept := 0, deleted := [], reclaimed := 0, errors := [] }
        have h2 := Registry.sweep_keeps_live live false s.ListBlobDigests s
          { kept := 0, deleted := [], reclaimed := 0, errors := [] } b hb hmem
        rw [hcol] at h1 h2
        refine ⟨?_, h2⟩
        intro hdel
        rcases h1 b.digest hdel with h | h
        · simp at h
        · exact h hmem
  · have hgc := Registry.PerformGC_keeps_reachable s ctx false removeUntagged b hb hr
    rw [prune_state_eq]
    split
    · show b ∈ (Registry.PerformPurgeUploads ctx false
        (Registry.PerformGC ctx false removeUntagged s).state).state.blobs
      rw [Registry.PerformPurgeUploads_blobs]
      exact hgc
    · exact hgc

/-- Witness of C7: in scenario A the blob `B1`, referenced by the tagged
manifest `M1`, is reachable and survives the prune. -/
theorem prune_keeps_reachable_witness :
    (Blob.mk "B1" 20 none) ∈ (scenarioA "M1" "B1" "B2" 10 20 30).blobs ∧
      Registry.Reachable (scenarioA "M1" "B1" "B2" 10 20 30) true "B1" ∧
      (Blob.mk "B1" 20 none) ∈ ((backend.mk registryStore).Prune (Context.mk false) false true
        (scenarioA "M1" "B1" "B2" 10 20 30)).state.blobs :=
  ⟨by decide,
    Registry.Reachable.step "M1" "B1" (Registry.Reachable.root "M1" (by decide)) (by decide),
    (prune_keeps_reachable (scenarioA "M1" "B1" "B2" 10 20 30) (Context.mk false) true
      (Blob.mk "B1" 20 none) (by decide)
      (Registry.Reachable.step "M1" "B1" (Registry.Reachable.root "M1" (by decide))
        (by decide))).2⟩

/-- C8: Scenario A. On the store of the design holding exactly a manifest `m1`
tagged "v1" that references `b1`, the blob `b1`, and a blob `b2` referenced
by nothing (three distinct digests; the store reachable, no cancellation, no
failing deletion), `Prune(dryRun = false, removeUntagged = true)` returns
nil, the sweep reports exactly `b2` deleted and two blobs kept, and the store
afterwards holds exactly `m1` and `b1`. -/
theorem scenarioA_prune (m1 b1 b2 : Digest) (n1 n2 n3 : Nat)
    (h12 : m1 ≠ b1) (h13 : m1 ≠ b2) (h23 : b1 ≠ b2) :
    ((backend.mk registryStore).Prune (Context.mk false) false true
        (scenarioA m1 b1 b2 n1 n2 n3)).err = none ∧
      ((backend.mk registryStore).Prune (Context.mk false) false true
        (scenarioA m1 b1 b2 n1 n2 n3)).state.blobs =
        [{ digest := m1, size := n1, refs := some [b1] },
         { digest := b1, size := n2, refs := none }] ∧
      (scenarioA m1 b1 b2 n1 n2 n3).ComputeLiveSet (Context.mk false) true =
        Except.ok [b1, m1] ∧
      ((scenarioA m1 b1 b2 n1 n2 n3).Collect (Context.mk false) [b1, m1] false).map Prod.fst =
        Except.ok { kept := 2, deleted := [b2], reclaimed := n3, errors := [] } := by
  have h21 : b1 ≠ m1 := fun h => h12 h.symm
  have h31 : b2 ≠ m1 := fun h => h13 h.symm
  have h32 : b2 ≠ b1 := fun h => h23 h.symm
  simp [backend.Prune, registryStore, Registry.PerformGC, Registry.ComputeLiveSet,
    Registry.Collect, Registry.PerformPurgeUploads, Registry.PurgeUploads, scenarioA,
    Registry.walk, Registry.walkBound, Registry.roots, Registry.refsOf, Registry.sweep,
    Registry.ListBlobDigests, Registry.DeleteBlob, Registry.blobSize, h12, h13, h23, h21, h31,
    h32, Except.map]

/-- Witness of C8: the scenario with the digests "M1", "B1" and "B2". -/
theorem scenarioA_prune_witness :
    ((backend.mk registryStore).Prune (Context.mk false) false true
        (scenarioA "M1" "B1" "B2" 10 20 30)).err = none ∧
      ((backend.mk registryStore).Prune (Context.mk false) false true
        (scenarioA "M1" "B1" "B2" 10 20 30)).state.blobs.map Blob.digest = ["M1", "B1"] :=
  ⟨(scenarioA_prune "M1" "B1" "B2" 10 20 30 (by decide) (by decide) (by decide)).1,
    by rw [(scenarioA_prune "M1" "B1" "B2" 10 20 30 (by decide) (by decide) (by decide)).2.1]; rfl⟩

/-! ## The claim about `NewRoot` -/

/-- C10: `NewRoot` returns an error exactly when the current-user lookup
fails, and then it returns no `Root` and the lookup's error unchanged;
otherwise, for every home directory, it returns a `Root` whose `StorageDir`
is the join of the home directory and ".modctl", whose `LogDir` is the join
of that `StorageDir` and "logs", which is `StorageDir` followed by "/logs",
and whose other fields are `Pprof = false`, `PprofAddr = "localhost:6060"`,
`DisableProgress = false` and `LogLevel = "info"`. -/
theorem NewRoot_spec (current : Except GoError User) :
    ((config.NewRoot current).2 ≠ none ↔ ∃ e, current = Except.error e) ∧
      (∀ e, current = Except.error e → config.NewRoot current = (none, some e)) ∧
      (∀ u, current = Except.ok u →
        ∃ r, config.NewRoot current = (some r, none) ∧
          r.StorageDir = filepath.Join [u.HomeDir, ".modctl"] ∧
          r.LogDir = filepath.Join [r.StorageDir, "logs"] ∧
          r.LogDir = r.StorageDir ++ "/logs" ∧
          r.Pprof = false ∧ r.PprofAddr = "localhost:6060" ∧
          r.DisableProgress = false ∧ r.LogLevel = "info") := by
  refine ⟨?_, ?_, ?_⟩
  · cases current with
    | error e => simp [config.NewRoot]
    | ok u => simp [config.NewRoot]
  · intro e he
    subst he
    rfl
  · intro u hu
    subst hu
    refine ⟨_, rfl, rfl, ?_, ?_, rfl, rfl, rfl, rfl⟩
    · show filepath.Join [u.HomeDir, ".modctl/logs"] =
        filepath.Join [filepath.Join [u.HomeDir, ".modctl"], "logs"]
      exact (filepath.Join_Join u.HomeDir ".modctl" "logs" (by decide)).symm
    · show filepath.Join [u.HomeDir, ".modctl/logs"] =
        filepath.Join [u.HomeDir, ".modctl"] ++ "/logs"
      by_cases hh : u.HomeDir = ""
      · rw [hh]; decide
      · have := filepath.Join_plain_plain u.HomeDir ".modctl" "logs" hh
          (by simp [filepath.Plain]) (by simp [filepath.Plain])
        have e1 : (".modctl" : String) ++ "/" ++ "logs" = ".modctl/logs" := by decide
        have e2 : ("/" : String) ++ "logs" = "/logs" := by decide
        rw [e1] at this
        rw [this, String.append_assoc, e2]

/-- Witness of C10: the user whose home directory is "/home/alice". -/
theorem NewRoot_spec_witness :
    config.NewRoot (Except.ok (User.mk "1000" "1000" "alice" "Alice" "/home/alice")) =
      (some
        { StorageDir := "/home/alice/.modctl"
          Pprof := false
          PprofAddr := "localhost:6060"
          DisableProgress := false
          LogDir := "/home/alice/.modctl/logs"
          LogLevel := "info" },
       none) ∧
      ∃ r, config.NewRoot (Except.ok (User.mk "1000" "1000" "alice" "Alice" "/home/alice")) =
          (some r, none) ∧
        r.StorageDir = filepath.Join ["/home/alice", ".modctl"] ∧
        r.LogDir = filepath.Join [r.StorageDir, "logs"] ∧
        r.LogDir = r.StorageDir ++ "/logs" ∧
        r.Pprof = false ∧ r.PprofAddr = "localhost:6060" ∧
        r.DisableProgress = false ∧ r.LogLevel = "info" :=
  ⟨by decide,
    (NewRoot_spec (Except.ok (User.mk "1000" "1000" "alice" "Alice" "/home/alice"))).2.2
      (User.mk "1000" "1000" "alice" "Alice" "/home/alice") rfl⟩

end Modctl
